import Mathlib

/-!
Verification development for the AudiGIF repository (src/script.js).

The container codec (`AGIFDecoder.decode`, `createAudiGIF`), the PCM-to-WAV
transcoder (`audioBufferToWav`) and the playback scheduler (`AGIFPlayer`)
are embedded shallowly: byte buffers are `List Nat` (each entry one byte),
JavaScript numbers on the integer paths are `Nat`, audio float samples are
`ℚ`, and the browser event loop (setTimeout / requestAnimationFrame pools)
is explicit state.  Host capabilities that the script calls
(`JSON.stringify` / `JSON.parse` on the two fixed object shapes, the text
encoder on ASCII data) are modelled as executable Lean functions faithful
to their behaviour on the data this program feeds them.
-/

/-- Bytes of an ASCII string literal, as `TextEncoder.encode` produces for
the ASCII strings appearing in the script (UTF-8 agrees with the code
points below 128). -/
def strBytes (s : String) : List Nat := s.toList.map Char.toNat

/-- Little-endian bytes written by `DataView.setUint32(_, n, true)`
(src/script.js lines 351, 372, 390, 399): the value is reduced mod 2^32 and
split into four bytes, least significant first. -/
def u32Bytes (n : Nat) : List Nat :=
  [n % 256, n / 256 % 256, n / 65536 % 256, n / 16777216 % 256]

/-- Little-endian bytes written by `DataView.setUint16(_, n, true)`
(src/script.js lines 428-433). -/
def u16Bytes (n : Nat) : List Nat := [n % 256, n / 256 % 256]

/-- Fuel-driven decimal digit emitter (most significant digit first).
Auxiliary to `natBytes`; fuel `n + 1` always suffices. -/
def natBytesAux : Nat → Nat → List Nat
  | 0, _ => []
  | fuel + 1, n => if n = 0 then [] else natBytesAux fuel (n / 10) ++ [n % 10 + 48]

/-- ASCII decimal representation of a natural number, as `JSON.stringify`
prints the non-negative integer fields of the header and trigger objects. -/
def natBytes (n : Nat) : List Nat :=
  if n = 0 then [48] else natBytesAux (n + 1) n

/-- A trigger entry `{frame, audio}` (src/script.js line 279). -/
structure Trigger where
  frame : Nat
  audio : Nat
deriving DecidableEq

/-- The header object built by `createAudiGIF` (src/script.js lines
331-340) and recovered by `JSON.parse` in the decoder.  String-valued
fields are kept as byte lists. -/
structure AGIFHeader where
  magic : List Nat
  version : List Nat
  width : Nat
  height : Nat
  frameRate : Nat
  audioFormat : List Nat
  numFrames : Nat
  numAudioClips : Nat
deriving DecidableEq

/-- The trigger-map object `{frame_triggers, loop}` (src/script.js line
395). -/
structure TriggerMap where
  frame_triggers : List Trigger
  loop : Bool
deriving DecidableEq

/-- Result of a successful `AGIFDecoder.decode` at the byte-codec level:
the parsed header, the sliced frame payload bytes, the sliced audio bytes,
the trigger list and the loop flag (src/script.js lines 91-97).  Turning
the frame bytes into `Image` objects and the audio bytes into
`AudioBuffer`s (lines 70-89) is host-capability work outside the codec. -/
structure Decoded where
  header : AGIFHeader
  frameBytes : List (List Nat)
  audioBytes : List (List Nat)
  triggers : List Trigger
  loop : Bool
deriving DecidableEq

/-- Failure modes of `AGIFDecoder.decode`.  `truncated` models the
`RangeError` thrown by `new Uint8Array(buffer, offset, len)` or
`DataView.getUint32` when a read would pass the end of the buffer;
`badMagic` is the explicit `Invalid AGIF file` throw (line 11);
`invalidJson` models a `JSON.parse` `SyntaxError`; `unsupported` is the
version/format throw (lines 24-28); `trailing n` is the explicit
`Extra n bytes at end` throw (lines 62-68). -/
inductive DecodeError
  | truncated
  | badMagic
  | invalidJson
  | unsupported
  | trailing (extra : Nat)
deriving DecidableEq

/-- Decidable equality for `Except`, so decode results can be compared by
evaluation. -/
instance {e a : Type} [DecidableEq e] [DecidableEq a] : DecidableEq (Except e a) := fun x y =>
  match x, y with
  | .error u, .error v => decidable_of_iff (u = v) (by simp)
  | .ok u, .ok v => decidable_of_iff (u = v) (by simp)
  | .error _, .ok _ => isFalse (by simp)
  | .ok _, .error _ => isFalse (by simp)

/-- Slice `len` bytes at `off`, as `new Uint8Array(arrayBuffer, off, len)`:
succeeds exactly when the slice lies inside the buffer, otherwise the
constructor throws a `RangeError` (modelled as `none`). -/
def sliceB (buf : List Nat) (off len : Nat) : Option (List Nat) :=
  if off + len ≤ buf.length then some ((buf.drop off).take len) else none

/-- Little-endian 32-bit read, as `view.getUint32(off, true)`: a
`RangeError` (`none`) when fewer than four bytes remain. -/
def getU32 (buf : List Nat) (off : Nat) : Option Nat :=
  match sliceB buf off 4 with
  | some [b0, b1, b2, b3] => some (b0 + 256 * b1 + 65536 * b2 + 16777216 * b3)
  | _ => none

/-- String field of a JSON object, quoted.  The string fields this program
serializes ("AGIF", "1.0", "wav") contain no quote or escape characters. -/
def quoteBytes (s : List Nat) : List Nat := 34 :: s ++ [34]

/-- Bytes of `JSON.stringify(header)` for the header object literal of
src/script.js lines 331-340: fixed key order (insertion order of the
literal), no whitespace, string fields quoted, integer fields in decimal.
Models the host `JSON.stringify` on exactly this object shape. -/
def stringifyHeader (h : AGIFHeader) : List Nat :=
  strBytes "\x7b\"magic\":" ++ quoteBytes h.magic ++
  strBytes ",\"version\":" ++ quoteBytes h.version ++
  strBytes ",\"width\":" ++ natBytes h.width ++
  strBytes ",\"height\":" ++ natBytes h.height ++
  strBytes ",\"frameRate\":" ++ natBytes h.frameRate ++
  strBytes ",\"audioFormat\":" ++ quoteBytes h.audioFormat ++
  strBytes ",\"numFrames\":" ++ natBytes h.numFrames ++
  strBytes ",\"numAudioClips\":" ++ natBytes h.numAudioClips ++
  strBytes "\x7d"

/-- Bytes of `JSON.stringify` of one trigger object `{frame, audio}`
(key order from the literal at src/script.js line 279). -/
def stringifyTrigger (t : Trigger) : List Nat :=
  strBytes "\x7b\"frame\":" ++ natBytes t.frame ++
  strBytes ",\"audio\":" ++ natBytes t.audio ++ strBytes "\x7d"

/-- Tail of the JSON array text after its first element: `,e` repeated,
then the closing bracket. -/
def stringifyTriggerItems : List Trigger → List Nat
  | [] => [93]
  | t :: ts => 44 :: stringifyTrigger t ++ stringifyTriggerItems ts

/-- Bytes of `JSON.stringify` of the trigger array. -/
def stringifyTriggerList : List Trigger → List Nat
  | [] => [91, 93]
  | t :: ts => 91 :: stringifyTrigger t ++ stringifyTriggerItems ts

/-- Bytes of `JSON.stringify({frame_triggers: ts, loop})` (src/script.js
lines 395-396). -/
def stringifyTriggerMap (ts : List Trigger) (loop : Bool) : List Nat :=
  strBytes "\x7b\"frame_triggers\":" ++ stringifyTriggerList ts ++
  strBytes ",\"loop\":" ++ (if loop then strBytes "true" else strBytes "false") ++
  strBytes "\x7d"

/-- Expect a literal byte sequence, returning the remainder. -/
def parseLit : List Nat → List Nat → Option (List Nat)
  | [], rest => some rest
  | _ :: _, [] => none
  | l :: ls, b :: bs => if b = l then parseLit ls bs else none

/-- ASCII decimal digit test. -/
def isDigitB (b : Nat) : Bool := 48 ≤ b && b ≤ 57

/-- Whether a byte list does not start with a decimal digit (used to state
where a JSON number parse must stop). -/
def headNotDigit : List Nat → Bool
  | [] => true
  | b :: _ => !isDigitB b

/-- Consume leading digits into an accumulator (JSON number parsing for
the non-negative integers this format carries). -/
def parseNatGo : Nat → List Nat → Nat × List Nat
  | acc, [] => (acc, [])
  | acc, b :: bs =>
    if isDigitB b then parseNatGo (acc * 10 + (b - 48)) bs else (acc, b :: bs)

/-- Parse a non-negative decimal integer; fails when the input does not
start with a digit. -/
def parseNatB : List Nat → Option (Nat × List Nat)
  | [] => none
  | b :: bs => if isDigitB b then some (parseNatGo (b - 48) bs) else none

/-- Bytes up to the closing quote of a JSON string body (the strings this
format carries contain no escapes). -/
def takeUntilQuote : List Nat → Option (List Nat × List Nat)
  | [] => none
  | b :: bs =>
    if b = 34 then some ([], bs)
    else (takeUntilQuote bs).map (fun p => (b :: p.1, p.2))

/-- Parse a quoted JSON string. -/
def parseStringB : List Nat → Option (List Nat × List Nat)
  | [] => none
  | b :: bs => if b = 34 then takeUntilQuote bs else none

/-- Parse of the header JSON emitted by this program's encoder.  Models the
host `JSON.parse` restricted to the flat object shape of src/script.js
lines 331-340 (fixed key order, no whitespace); any other text is a parse
failure, as `JSON.parse` would reject or produce an object failing the
decoder's field checks. -/
def parseHeaderBytes (bs : List Nat) : Option AGIFHeader :=
  match parseLit (strBytes "\x7b\"magic\":") bs with
  | none => none
  | some r1 =>
  match parseStringB r1 with
  | none => none
  | some (magic, r2) =>
  match parseLit (strBytes ",\"version\":") r2 with
  | none => none
  | some r3 =>
  match parseStringB r3 with
  | none => none
  | some (version, r4) =>
  match parseLit (strBytes ",\"width\":") r4 with
  | none => none
  | some r5 =>
  match parseNatB r5 with
  | none => none
  | some (width, r6) =>
  match parseLit (strBytes ",\"height\":") r6 with
  | none => none
  | some r7 =>
  match parseNatB r7 with
  | none => none
  | some (height, r8) =>
  match parseLit (strBytes ",\"frameRate\":") r8 with
  | none => none
  | some r9 =>
  match parseNatB r9 with
  | none => none
  | some (frameRate, r10) =>
  match parseLit (strBytes ",\"audioFormat\":") r10 with
  | none => none
  | some r11 =>
  match parseStringB r11 with
  | none => none
  | some (audioFormat, r12) =>
  match parseLit (strBytes ",\"numFrames\":") r12 with
  | none => none
  | some r13 =>
  match parseNatB r13 with
  | none => none
  | some (numFrames, r14) =>
  match parseLit (strBytes ",\"numAudioClips\":") r14 with
  | none => none
  | some r15 =>
  match parseNatB r15 with
  | none => none
  | some (numAudioClips, r16) =>
  match parseLit (strBytes "\x7d") r16 with
  | none => none
  | some r17 =>
  if r17 = [] then
    some ⟨magic, version, width, height, frameRate, audioFormat, numFrames, numAudioClips⟩
  else none

/-- Parse one trigger object `{"frame":i,"audio":j}`. -/
def parseTriggerObj (bs : List Nat) : Option (Trigger × List Nat) :=
  match parseLit (strBytes "\x7b\"frame\":") bs with
  | none => none
  | some r1 =>
  match parseNatB r1 with
  | none => none
  | some (frame, r2) =>
  match parseLit (strBytes ",\"audio\":") r2 with
  | none => none
  | some r3 =>
  match parseNatB r3 with
  | none => none
  | some (audio, r4) =>
  match parseLit (strBytes "\x7d") r4 with
  | none => none
  | some r5 => some (⟨frame, audio⟩, r5)

/-- Parse the elements of a non-empty trigger array after the opening
bracket; fuel bounds the recursion by the input length. -/
def parseTriggerItems : Nat → List Nat → Option (List Trigger × List Nat)
  | 0, _ => none
  | fuel + 1, bs =>
    match parseTriggerObj bs with
    | none => none
    | some (t, r1) =>
    match r1 with
    | [] => none
    | c :: r2 =>
      if c = 44 then
        match parseTriggerItems fuel r2 with
        | none => none
        | some (ts, r3) => some (t :: ts, r3)
      else if c = 93 then some ([t], r2) else none

/-- Parse a JSON array of trigger objects. -/
def parseTriggerArr : List Nat → Option (List Trigger × List Nat)
  | [] => none
  | b :: bs =>
    if b = 91 then
      match bs with
      | [] => none
      | c :: rest =>
        if c = 93 then some ([], rest) else parseTriggerItems (bs.length + 1) bs
    else none

/-- Parse a JSON boolean literal. -/
def parseBoolB (bs : List Nat) : Option (Bool × List Nat) :=
  match parseLit (strBytes "true") bs with
  | some r => some (true, r)
  | none =>
    match parseLit (strBytes "false") bs with
    | some r => some (false, r)
    | none => none

/-- Parse of the trigger-map JSON emitted by this program's encoder.
Models the host `JSON.parse` restricted to the object shape of
src/script.js line 395. -/
def parseTriggerMapBytes (bs : List Nat) : Option TriggerMap :=
  match parseLit (strBytes "\x7b\"frame_triggers\":") bs with
  | none => none
  | some r1 =>
  match parseTriggerArr r1 with
  | none => none
  | some (ts, r2) =>
  match parseLit (strBytes ",\"loop\":") r2 with
  | none => none
  | some r3 =>
  match parseBoolB r3 with
  | none => none
  | some (loop, r4) =>
  match parseLit (strBytes "\x7d") r4 with
  | none => none
  | some r5 => if r5 = [] then some ⟨ts, loop⟩ else none

/-- Read `count` length-prefixed sections starting at `off`, as the frame
and audio loops of `AGIFDecoder.decode` (src/script.js lines 30-50): a
4-byte little-endian length, then exactly that many bytes.  Returns the
section byte lists and the offset after the last one. -/
def readSections (buf : List Nat) : Nat → Nat → Except DecodeError (List (List Nat) × Nat)
  | 0, off => .ok ([], off)
  | count + 1, off =>
    match getU32 buf off with
    | none => .error .truncated
    | some len =>
      match sliceB buf (off + 4) len with
      | none => .error .truncated
      | some bytes =>
        match readSections buf count (off + 4 + len) with
        | .error e => .error e
        | .ok (rest, off') => .ok (bytes :: rest, off')

/-- Everything `AGIFDecoder.decode` does up to and including parsing the
trigger section (src/script.js lines 3-59), returning the decoded value
and the cursor position, which lines 61-68 then compare with the buffer
length. -/
def decodeCore (buf : List Nat) : Except DecodeError (Decoded × Nat) :=
  match sliceB buf 0 4 with
  | none => .error .truncated
  | some magic =>
    if magic ≠ strBytes "AGIF" then .error .badMagic else
    match getU32 buf 4 with
    | none => .error .truncated
    | some headerLen =>
      match sliceB buf 8 headerLen with
      | none => .error .truncated
      | some headerBytes =>
        match parseHeaderBytes headerBytes with
        | none => .error .invalidJson
        | some header =>
          if header.version ≠ strBytes "1.0" ∨ header.audioFormat ≠ strBytes "wav" then
            .error .unsupported
          else
            match readSections buf header.numFrames (8 + headerLen) with
            | .error e => .error e
            | .ok (frames, offF) =>
              match readSections buf header.numAudioClips offF with
              | .error e => .error e
              | .ok (audios, offA) =>
                match getU32 buf offA with
                | none => .error .truncated
                | some triggerLen =>
                  match sliceB buf (offA + 4) triggerLen with
                  | none => .error .truncated
                  | some triggerBytes =>
                    match parseTriggerMapBytes triggerBytes with
                    | none => .error .invalidJson
                    | some tm =>
                      .ok (⟨header, frames, audios, tm.frame_triggers, tm.loop != false⟩,
                           offA + 4 + triggerLen)

/-- The byte-level `AGIFDecoder.decode` (src/script.js lines 3-98):
`decodeCore` followed by the end-of-file check of lines 61-68' cursor
comparison, reporting the exact count of extra bytes. -/
def AGIFDecoder.decode (buf : List Nat) : Except DecodeError Decoded :=
  match decodeCore buf with
  | .error e => .error e
  | .ok (d, off) =>
    if off = buf.length then .ok d else .error (.trailing (buf.length - off))

/-- The header value `createAudiGIF` constructs (src/script.js lines
331-340): fixed magic/version/size/format, the chosen frame rate, and
counts equal to the lengths of the supplied sequences. -/
def mkHeader (frameRate numFrames numAudioClips : Nat) : AGIFHeader :=
  ⟨strBytes "AGIF", strBytes "1.0", 300, 300, frameRate, strBytes "wav",
   numFrames, numAudioClips⟩

/-- Byte layout assembled by `createAudiGIF` (src/script.js lines 329-412):
magic, length-prefixed header JSON, length-prefixed frame payloads,
length-prefixed audio payloads, length-prefixed trigger JSON with the
hard-coded `loop: true`.  The conversion of uploaded images to base64 PNG
text (lines 354-366) and of audio files to WAV bytes (lines 377-385) are
host capabilities; their outputs are this function's `frames` and `audios`
arguments.  The encoder takes no loop input: line 395 writes the constant
`true`. -/
def createAudiGIF (frameRate : Nat) (frames audios : List (List Nat))
    (triggers : List Trigger) : List Nat :=
  let headerBytes := stringifyHeader (mkHeader frameRate frames.length audios.length)
  let frameParts := frames.flatMap (fun fb => u32Bytes fb.length ++ fb)
  let audioParts := audios.flatMap (fun ab => u32Bytes ab.length ++ ab)
  let triggerBytes := stringifyTriggerMap triggers true
  strBytes "AGIF" ++ u32Bytes headerBytes.length ++ headerBytes ++
  frameParts ++ audioParts ++ u32Bytes triggerBytes.length ++ triggerBytes

/-- Clamp a float sample to `[-1, 1]`:
`Math.max(-1, Math.min(1, s))` (src/script.js lines 439-442).  Samples are
embedded as rationals; the operations the code performs on them (compare,
clamp, multiply by 32768 = 2^15, truncate) are exact in binary floating
point at the claim's points of interest. -/
def clampSample (x : ℚ) : ℚ := max (-1) (min 1 x)

/-- Scale a clamped sample to the 16-bit range:
`sample < 0 ? sample * 0x8000 : sample * 0x7fff` (src/script.js line 445). -/
def scaleSample (x : ℚ) : ℚ :=
  let s := clampSample x
  if s < 0 then s * 32768 else s * 32767

/-- Truncation toward zero, as ECMAScript ToIntegerOrInfinity inside
`DataView.setInt16`. -/
def jsTrunc (q : ℚ) : Int := Int.tdiv q.num q.den

/-- The signed 16-bit value stored by `view.setInt16(_, v, true)`: truncate,
reduce mod 2^16, reinterpret the top half as negative. -/
def jsToInt16 (q : ℚ) : Int :=
  let m := jsTrunc q % 65536
  if m < 32768 then m else m - 65536

/-- Little-endian byte pair of the stored 16-bit value. -/
def int16LEBytes (q : ℚ) : List Nat :=
  let m := (jsTrunc q % 65536).toNat
  [m % 256, m / 256]

/-- A decoded PCM audio buffer as the Web Audio `AudioBuffer` presents it:
channel count, sample rate, frame count, and per-channel sample lists. -/
structure PCMBuffer where
  numberOfChannels : Nat
  sampleRate : Nat
  length : Nat
  channelData : List (List ℚ)

/-- The PCM-to-WAV transcoder `audioBufferToWav` (src/script.js lines
416-452): 44-byte canonical header followed by interleaved clamped,
scaled, little-endian 16-bit samples (time-major, then channel).  A
missing sample (`undefined` in JS, which the clamp turns into `NaN` and
`setInt16` stores as 0) is modelled by the default sample 0, which stores
the same bytes. -/
def audioBufferToWav (b : PCMBuffer) : List Nat :=
  strBytes "RIFF" ++ u32Bytes (36 + b.length * b.numberOfChannels * 2) ++
  strBytes "WAVE" ++ strBytes "fmt " ++ u32Bytes 16 ++ u16Bytes 1 ++
  u16Bytes b.numberOfChannels ++ u32Bytes b.sampleRate ++
  u32Bytes (b.sampleRate * b.numberOfChannels * 2) ++
  u16Bytes (b.numberOfChannels * 2) ++ u16Bytes 16 ++ strBytes "data" ++
  u32Bytes (b.length * b.numberOfChannels * 2) ++
  (List.range b.length).flatMap (fun i =>
    (List.range b.numberOfChannels).flatMap (fun c =>
      int16LEBytes (scaleSample ((b.channelData.getD c []).getD i 0))))

/-- Observable actions of one scheduler tick: drawing a frame
(`drawImage`, src/script.js lines 170-176) and starting an audio source
(`source.start()`, line 184). -/
inductive Event
  | renderFrame (i : Nat)
  | startAudio (clip : Nat)
deriving DecidableEq, BEq

/-- The in-memory assets the player holds after a successful load
(`this.decoded`, src/script.js line 130): header, decoded frame images and
audio clips (abstracted to identifiers; only their count and indexing
matter to the scheduler), triggers and loop flag. -/
structure DecodedAssets where
  header : AGIFHeader
  frames : List Nat
  audioBuffers : List Nat
  triggers : List Trigger
  loop : Bool
deriving DecidableEq

/-- `AGIFPlayer` instance state (constructor, src/script.js lines
102-109): `isPlaying`, `currentFrame`, the stored `setTimeout` handle
`animationId`, and the loaded container. -/
structure PlayerState where
  isPlaying : Bool
  currentFrame : Nat
  animationId : Option Nat
  decoded : Option DecodedAssets
deriving DecidableEq

/-- Player state plus the browser timing machinery the scheduler uses.
`timeouts` is the pool of pending `setTimeout` callbacks and `rafs` the
pool of pending `requestAnimationFrame` callbacks; they draw handles from
separate counters (`nextT`, `nextR`, both starting at 1 as browser handles
are positive), and `cancelAnimationFrame` removes handles only from the
`rafs` pool.  `events` records rendered frames and started audio. -/
structure World where
  player : PlayerState
  timeouts : List Nat
  rafs : List Nat
  nextT : Nat
  nextR : Nat
  events : List Event
deriving DecidableEq

/-- One tick of the scheduler, `AGIFPlayer.animate` (src/script.js lines
160-195): bail out when not playing or when there are no frames;
otherwise draw the current frame, start every trigger of this frame whose
audio index has a decoded clip (`audioBuffers[trigger.audio]` is truthy
exactly when the index is in bounds), advance the frame modulo
`header.numFrames`, and schedule the next tick via `setTimeout`, storing
its handle in `animationId`.  The unreachable `decoded = none` case (play
guards it) is the identity. -/
def AGIFPlayer.animate (w : World) : World :=
  if w.player.isPlaying = false then w else
  match w.player.decoded with
  | none => w
  | some d =>
    if d.frames = [] then w else
    let fired := d.triggers.filterMap (fun t =>
      if t.frame = w.player.currentFrame ∧ t.audio < d.audioBuffers.length then
        some (Event.startAudio t.audio)
      else none)
    { w with
      events := w.events ++ Event.renderFrame w.player.currentFrame :: fired,
      player := { w.player with
        currentFrame := (w.player.currentFrame + 1) % d.header.numFrames,
        animationId := some w.nextT },
      timeouts := w.timeouts ++ [w.nextT],
      nextT := w.nextT + 1 }

/-- `AGIFPlayer.play` (src/script.js lines 146-150): no-op while already
playing or with nothing loaded, else set `isPlaying` and run `animate`
immediately. -/
def AGIFPlayer.play (w : World) : World :=
  if w.player.isPlaying = true ∨ w.player.decoded = none then w
  else AGIFPlayer.animate { w with player := { w.player with isPlaying := true } }

/-- `AGIFPlayer.pause` (src/script.js lines 152-158): clear `isPlaying`;
when an `animationId` is stored, call `cancelAnimationFrame` with it —
which removes it from the `rafs` pool only, never from the `timeouts`
pool the handle actually came from — and null the field. -/
def AGIFPlayer.pause (w : World) : World :=
  let w1 := { w with player := { w.player with isPlaying := false } }
  match w1.player.animationId with
  | none => w1
  | some id =>
    { w1 with rafs := w1.rafs.erase id,
              player := { w1.player with animationId := none } }

/-- Delivery of a pending `setTimeout` callback scheduled by `animate`:
its body (src/script.js lines 192-194) just registers a
`requestAnimationFrame` callback. -/
def fireTimeout (w : World) (h : Nat) : World :=
  if h ∈ w.timeouts then
    { w with timeouts := w.timeouts.erase h,
             rafs := w.rafs ++ [w.nextR],
             nextR := w.nextR + 1 }
  else w

/-- Delivery of a pending `requestAnimationFrame` callback: it runs
`animate` (src/script.js line 193). -/
def fireRaf (w : World) (h : Nat) : World :=
  if h ∈ w.rafs then AGIFPlayer.animate { w with rafs := w.rafs.erase h } else w

/-- Concrete three-frame, one-clip assets for the scheduler scenarios of
the specification: frame rate 10, a single trigger on frame 1 playing
clip 0, loop flag true. -/
def demoAssets : DecodedAssets := ⟨mkHeader 10 3 1, [0, 1, 2], [0], [⟨1, 0⟩], true⟩

/-- A world playing `demoAssets` at frame 0 with empty timer pools. -/
def demoWorld : World := ⟨⟨true, 0, none, some demoAssets⟩, [], [], 1, 1, []⟩

/-- A world mid-playback: frame 1, one pending `setTimeout` whose handle 5
is stored in `animationId`. -/
def pausedWorld : World := ⟨⟨true, 1, some 5, some demoAssets⟩, [5], [], 6, 1, []⟩

/-- The four bytes of a little-endian u32. -/
theorem u32Bytes_length (n : Nat) : (u32Bytes n).length = 4 := rfl

/-- A successful slice lies inside the buffer. -/
theorem sliceB_le {buf : List Nat} {off len : Nat} {s : List Nat}
    (h : sliceB buf off len = some s) : off + len ≤ buf.length := by
  unfold sliceB at h
  split at h
  · assumption
  · exact absurd h (by simp)

/-- A successful slice returns exactly the requested bytes. -/
theorem sliceB_eq {buf : List Nat} {off len : Nat} {s : List Nat}
    (h : sliceB buf off len = some s) : s = (buf.drop off).take len := by
  unfold sliceB at h
  split at h
  · exact (Option.some_injective _ h).symm
  · exact absurd h (by simp)

/-- Slicing a list at the position of one of its append components
returns that component. -/
theorem sliceB_pos (pre xs rest : List Nat) :
    sliceB (pre ++ xs ++ rest) pre.length xs.length = some xs := by
  unfold sliceB
  rw [if_pos (by simp)]
  rw [List.append_assoc, List.drop_left, List.take_left]

/-- Reading the little-endian u32 written at the same position recovers
the value when it fits in 32 bits. -/
theorem getU32_pos (pre : List Nat) (n : Nat) (rest : List Nat)
    (h : n < 4294967296) : getU32 (pre ++ u32Bytes n ++ rest) pre.length = some n := by
  unfold getU32
  have hs : sliceB (pre ++ u32Bytes n ++ rest) pre.length 4 = some (u32Bytes n) := by
    have := sliceB_pos pre (u32Bytes n) rest
    rwa [u32Bytes_length] at this
  rw [hs]
  show some (n % 256 + 256 * (n / 256 % 256) + 65536 * (n / 65536 % 256) +
    16777216 * (n / 16777216 % 256)) = some n
  congr 1
  omega

/-- A slice is determined by any prefix of the buffer that covers it:
if two buffers agree on their first `N` bytes and the slice ends by `N`,
the slice results agree. -/
theorem sliceB_stable {buf buf' : List Nat} {off len N : Nat} {s : List Nat}
    (hN : off + len ≤ N) (hpre : buf.take N = buf'.take N)
    (hlen : N ≤ buf'.length) (h : sliceB buf off len = some s) :
    sliceB buf' off len = some s := by
  have htake : buf.take (off + len) = buf'.take (off + len) := by
    have h1 : buf.take (off + len) = (buf.take N).take (off + len) := by
      rw [List.take_take, Nat.min_eq_left hN]
    have h2 : buf'.take (off + len) = (buf'.take N).take (off + len) := by
      rw [List.take_take, Nat.min_eq_left hN]
    rw [h1, h2, hpre]
  have hview : ∀ l : List Nat, (l.drop off).take len = (l.take (off + len)).drop off := by
    intro l
    rw [List.drop_take]
    congr 1
    omega
  unfold sliceB
  rw [if_pos (le_trans hN hlen)]
  rw [sliceB_eq h, hview buf, hview buf', htake]

/-- Slicing past the end of a truncated buffer fails. -/
theorem sliceB_take_none {buf : List Nat} {off len L : Nat}
    (hL : L ≤ buf.length) (hcross : L < off + len) :
    sliceB (buf.take L) off len = none := by
  unfold sliceB
  rw [if_neg]
  rw [List.length_take]
  omega

/-- Stability of the u32 read under agreement on a covering prefix. -/
theorem getU32_stable {buf buf' : List Nat} {off N : Nat} {n : Nat}
    (hN : off + 4 ≤ N) (hpre : buf.take N = buf'.take N)
    (hlen : N ≤ buf'.length) (h : getU32 buf off = some n) :
    getU32 buf' off = some n := by
  unfold getU32 at h ⊢
  cases hs : sliceB buf off 4 with
  | none => rw [hs] at h; exact absurd h (by simp)
  | some s =>
    rw [sliceB_stable hN hpre hlen hs]
    rw [hs] at h
    exact h

/-- A u32 read past the end of a truncated buffer fails. -/
theorem getU32_take_none {buf : List Nat} {off L : Nat}
    (hL : L ≤ buf.length) (hcross : L < off + 4) :
    getU32 (buf.take L) off = none := by
  unfold getU32
  rw [sliceB_take_none hL hcross]

/-- A successful u32 read stays inside the buffer. -/
theorem getU32_le {buf : List Nat} {off n : Nat}
    (h : getU32 buf off = some n) : off + 4 ≤ buf.length := by
  unfold getU32 at h
  cases hs : sliceB buf off 4 with
  | none => rw [hs] at h; exact absurd h (by simp)
  | some s => exact sliceB_le hs

/-- The digit emitter ignores its fuel as long as the fuel exceeds the
value. -/
theorem natBytesAux_stable (n : Nat) : ∀ f1 f2, n < f1 → n < f2 →
    natBytesAux f1 n = natBytesAux f2 n := by
  induction n using Nat.strong_induction_on with
  | _ n ih =>
    intro f1 f2 h1 h2
    match f1, f2 with
    | g1 + 1, g2 + 1 =>
      by_cases hz : n = 0
      · simp [natBytesAux, hz]
      · have hdiv : n / 10 < n := Nat.div_lt_self (Nat.pos_of_ne_zero hz) (by norm_num)
        have e1 : natBytesAux g1 (n / 10) = natBytesAux (n / 10 + 1) (n / 10) :=
          ih (n / 10) hdiv g1 (n / 10 + 1) (by omega) (by omega)
        have e2 : natBytesAux g2 (n / 10) = natBytesAux (n / 10 + 1) (n / 10) :=
          ih (n / 10) hdiv g2 (n / 10 + 1) (by omega) (by omega)
        simp only [natBytesAux, if_neg hz]
        rw [e1, e2]

/-- Decimal printing of a one-digit positive number. -/
theorem natBytes_small {n : Nat} (h1 : n ≠ 0) (h2 : n < 10) :
    natBytes n = [n + 48] := by
  unfold natBytes natBytesAux
  rw [if_neg h1, if_neg h1]
  have hdiv : n / 10 = 0 := Nat.div_eq_of_lt h2
  rw [hdiv]
  match n, h1 with
  | m + 1, _ =>
    simp [natBytesAux]
    omega

/-- Decimal printing peels the last digit off a multi-digit number. -/
theorem natBytes_snoc {n : Nat} (h : 10 ≤ n) :
    natBytes n = natBytes (n / 10) ++ [n % 10 + 48] := by
  have hz : n ≠ 0 := by omega
  have hz10 : n / 10 ≠ 0 := by
    intro hc
    have := Nat.div_eq_of_lt (by omega : n < 10)
    omega
  unfold natBytes
  rw [if_neg hz, if_neg hz10]
  show natBytesAux (n + 1) n = _
  unfold natBytesAux
  rw [if_neg hz]
  congr 1
  exact natBytesAux_stable (n / 10) n (n / 10 + 1)
    (lt_of_lt_of_le (Nat.div_lt_self (Nat.pos_of_ne_zero hz) (by norm_num)) (by omega))
    (by omega)

/-- Every byte of a decimal print is an ASCII digit. -/
theorem natBytes_digits (n : Nat) : ∀ b ∈ natBytes n, isDigitB b = true := by
  induction n using Nat.strong_induction_on with
  | _ n ih =>
    by_cases hz : n = 0
    · subst hz
      intro b hb
      simp [natBytes] at hb
      simp [hb, isDigitB]
    · by_cases hs : n < 10
      · rw [natBytes_small hz hs]
        intro b hb
        simp at hb
        simp [hb, isDigitB]
        omega
      · rw [natBytes_snoc (by omega)]
        intro b hb
        rw [List.mem_append] at hb
        rcases hb with hb | hb
        · exact ih (n / 10) (Nat.div_lt_self (Nat.pos_of_ne_zero hz) (by norm_num)) b hb
        · simp at hb
          have : n % 10 < 10 := Nat.mod_lt _ (by norm_num)
          simp [hb, isDigitB]
          omega

/-- A decimal print is never empty. -/
theorem natBytes_ne_nil (n : Nat) : natBytes n ≠ [] := by
  by_cases hz : n = 0
  · simp [hz, natBytes]
  · by_cases hs : n < 10
    · simp [natBytes_small hz hs]
    · simp [natBytes_snoc (by omega : 10 ≤ n)]

/-- Folding the digit-accumulation step over a decimal print recovers the
value (shifted past any previous accumulator). -/
theorem natBytes_foldl (n : Nat) : ∀ acc : Nat,
    (natBytes n).foldl (fun a b => a * 10 + (b - 48)) acc =
      acc * 10 ^ (natBytes n).length + n := by
  induction n using Nat.strong_induction_on with
  | _ n ih =>
    intro acc
    by_cases hz : n = 0
    · subst hz; simp [natBytes]
    · by_cases hs : n < 10
      · rw [natBytes_small hz hs]
        simp
      · rw [natBytes_snoc (by omega : 10 ≤ n)]
        rw [List.foldl_append]
        rw [ih (n / 10) (Nat.div_lt_self (Nat.pos_of_ne_zero hz) (by norm_num)) acc]
        simp [List.length_append]
        ring_nf
        omega

/-- The digit consumer walks through a block of digits, folding them into
the accumulator, and resumes on the remainder. -/
theorem parseNatGo_append (ds : List Nat) (hd : ∀ b ∈ ds, isDigitB b = true) :
    ∀ acc rest, parseNatGo acc (ds ++ rest) =
      parseNatGo (ds.foldl (fun a b => a * 10 + (b - 48)) acc) rest := by
  induction ds with
  | nil => intro acc rest; rfl
  | cons b bs ih =>
    intro acc rest
    have hb : isDigitB b = true := hd b (by simp)
    have ih2 := ih (fun x hx => hd x (by simp [hx])) (acc * 10 + (b - 48)) rest
    simp only [List.cons_append, parseNatGo, hb, if_true, List.foldl_cons]
    exact ih2

/-- The digit consumer stops at a non-digit. -/
theorem parseNatGo_stop (acc : Nat) {rest : List Nat}
    (h : headNotDigit rest = true) : parseNatGo acc rest = (acc, rest) := by
  match rest with
  | [] => rfl
  | b :: bs =>
    unfold headNotDigit at h
    rw [Bool.not_eq_true'] at h
    simp only [parseNatGo, h]
    simp

/-- Parsing the decimal print of `n` followed by a non-digit remainder
yields `n` and the remainder. -/
theorem parseNatB_round (n : Nat) {rest : List Nat}
    (h : headNotDigit rest = true) :
    parseNatB (natBytes n ++ rest) = some (n, rest) := by
  cases hnb : natBytes n with
  | nil => exact absurd hnb (natBytes_ne_nil n)
  | cons d ds =>
    have hdig : ∀ b ∈ natBytes n, isDigitB b = true := natBytes_digits n
    have hd : isDigitB d = true := by
      apply hdig
      rw [hnb]
      simp
    show parseNatB (d :: (ds ++ rest)) = some (n, rest)
    simp only [parseNatB, hd, if_true]
    rw [parseNatGo_append ds (by intro b hb; apply hdig; rw [hnb]; simp [hb])]
    rw [parseNatGo_stop _ h]
    have hfold := natBytes_foldl n 0
    rw [hnb] at hfold
    simp only [List.foldl_cons, Nat.zero_mul, Nat.zero_add] at hfold
    rw [hfold]

/-- Scanning to the closing quote returns the string body and remainder
when the body has no quote byte. -/
theorem takeUntilQuote_round (s : List Nat) (h : (34 : Nat) ∉ s) :
    ∀ rest, takeUntilQuote (s ++ 34 :: rest) = some (s, rest) := by
  induction s with
  | nil =>
    intro rest
    show takeUntilQuote (34 :: rest) = _
    unfold takeUntilQuote
    rw [if_pos rfl]
  | cons b bs ih =>
    intro rest
    have hb : b ≠ 34 := by
      intro hc
      exact h (by simp [hc])
    show takeUntilQuote (b :: (bs ++ 34 :: rest)) = _
    unfold takeUntilQuote
    rw [if_neg hb]
    rw [ih (by intro hc; exact h (by simp [hc])) rest]
    rfl

/-- Parsing a quoted string body with no embedded quote recovers it. -/
theorem parseStringB_round (s : List Nat) (h : (34 : Nat) ∉ s) (rest : List Nat) :
    parseStringB (quoteBytes s ++ rest) = some (s, rest) := by
  have hsh : quoteBytes s ++ rest = 34 :: (s ++ 34 :: rest) := by
    simp [quoteBytes]
  rw [hsh]
  simp only [parseStringB, if_pos]
  exact takeUntilQuote_round s h rest

/-- Consuming an expected literal off the front succeeds. -/
theorem parseLit_append (lit : List Nat) : ∀ rest, parseLit lit (lit ++ rest) = some rest := by
  induction lit with
  | nil => intro rest; rfl
  | cons l ls ih =>
    intro rest
    show parseLit (l :: ls) (l :: (ls ++ rest)) = some rest
    unfold parseLit
    rw [if_pos rfl]
    exact ih rest

/-- After a serialized number in a trigger object comes a comma. -/
theorem headNotDigit_audioKey (l : List Nat) :
    headNotDigit (strBytes ",\"audio\":" ++ l) = true := rfl

/-- After a serialized number comes the closing brace. -/
theorem headNotDigit_close (l : List Nat) :
    headNotDigit (strBytes "\x7d" ++ l) = true := rfl

/-- After the serialized width comes the height key. -/
theorem headNotDigit_heightKey (l : List Nat) :
    headNotDigit (strBytes ",\"height\":" ++ l) = true := rfl

/-- After the serialized height comes the frame-rate key. -/
theorem headNotDigit_frameRateKey (l : List Nat) :
    headNotDigit (strBytes ",\"frameRate\":" ++ l) = true := rfl

/-- After the serialized frame rate comes the audio-format key. -/
theorem headNotDigit_audioFormatKey (l : List Nat) :
    headNotDigit (strBytes ",\"audioFormat\":" ++ l) = true := rfl

/-- After the serialized frame count comes the clip-count key. -/
theorem headNotDigit_numAudioClipsKey (l : List Nat) :
    headNotDigit (strBytes ",\"numAudioClips\":" ++ l) = true := rfl

/-- After the serialized clip count comes the closing brace. -/
theorem headNotDigit_numFramesKey (l : List Nat) :
    headNotDigit (strBytes ",\"numFrames\":" ++ l) = true := rfl

/-- Parsing the print of a trigger object recovers it. -/
theorem parseTriggerObj_round (t : Trigger) (rest : List Nat) :
    parseTriggerObj (stringifyTrigger t ++ rest) = some (t, rest) := by
  unfold parseTriggerObj stringifyTrigger
  simp only [List.append_assoc, parseLit_append, parseNatB_round, headNotDigit_audioKey,
    headNotDigit_close]


/-- The closing brace alone also starts with a non-digit. -/
theorem headNotDigit_closeNil : headNotDigit (strBytes "\x7d") = true := rfl

/-- Consuming an expected literal that is the whole input leaves nothing. -/
theorem parseLit_self (lit : List Nat) : parseLit lit lit = some [] := by
  have := parseLit_append lit []
  rwa [List.append_nil] at this

/-- Parsing the print of a header object recovers it, provided its string
fields carry no quote byte. -/
theorem parseHeaderBytes_round (h : AGIFHeader)
    (hm : (34 : Nat) ∉ h.magic) (hv : (34 : Nat) ∉ h.version)
    (ha : (34 : Nat) ∉ h.audioFormat) :
    parseHeaderBytes (stringifyHeader h) = some h := by
  unfold parseHeaderBytes stringifyHeader
  simp only [List.append_assoc, parseLit_append, parseNatB_round,
    parseStringB_round _ hm, parseStringB_round _ hv, parseStringB_round _ ha,
    headNotDigit_heightKey, headNotDigit_frameRateKey, headNotDigit_audioFormatKey,
    headNotDigit_numAudioClipsKey, headNotDigit_numFramesKey, headNotDigit_close,
    headNotDigit_closeNil, parseLit_self, if_true]

/-- The serialized tail of a trigger array is at least as long as the
trigger list itself. -/
theorem stringifyTriggerItems_length (ts : List Trigger) :
    ts.length ≤ (stringifyTriggerItems ts).length := by
  induction ts with
  | nil => simp [stringifyTriggerItems]
  | cons t ts ih =>
    simp only [stringifyTriggerItems, List.length_cons, List.length_append]
    omega

/-- Parsing the elements of a serialized non-empty trigger array recovers
them, for any sufficient fuel. -/
theorem parseTriggerItems_round (ts : List Trigger) : ∀ (fuel : Nat) (t : Trigger)
    (rest : List Nat), ts.length < fuel →
    parseTriggerItems fuel (stringifyTrigger t ++ (stringifyTriggerItems ts ++ rest)) =
      some (t :: ts, rest) := by
  induction ts with
  | nil =>
    intro fuel t rest hfuel
    match fuel, hfuel with
    | f + 1, _ =>
      simp only [stringifyTriggerItems, List.singleton_append, parseTriggerItems,
        parseTriggerObj_round, reduceIte]
      norm_num
  | cons t2 ts2 ih =>
    intro fuel t rest hfuel
    match fuel, hfuel with
    | f + 1, hfuel =>
      have hshape : stringifyTriggerItems (t2 :: ts2) ++ rest =
          44 :: (stringifyTrigger t2 ++ (stringifyTriggerItems ts2 ++ rest)) := by
        simp [stringifyTriggerItems, List.append_assoc]
      simp only [parseTriggerItems, hshape, parseTriggerObj_round, reduceIte]
      rw [ih f t2 rest (by simpa using Nat.lt_of_succ_lt_succ hfuel)]

/-- Parsing a serialized trigger array recovers the trigger list. -/
theorem parseTriggerArr_round (ts : List Trigger) (rest : List Nat) :
    parseTriggerArr (stringifyTriggerList ts ++ rest) = some (ts, rest) := by
  cases ts with
  | nil => rfl
  | cons t ts2 =>
    have hcons : stringifyTrigger t ++ (stringifyTriggerItems ts2 ++ rest) =
        123 :: (strBytes "\"frame\":" ++ (natBytes t.frame ++ (strBytes ",\"audio\":" ++
          (natBytes t.audio ++ (strBytes "\x7d" ++ (stringifyTriggerItems ts2 ++ rest)))))) := by
      simp only [stringifyTrigger, List.append_assoc]
      rfl
    show parseTriggerArr (91 :: ((stringifyTrigger t ++ stringifyTriggerItems ts2) ++ rest)) =
      some (t :: ts2, rest)
    rw [List.append_assoc, hcons]
    simp only [parseTriggerArr, reduceIte]
    rw [← hcons]
    apply parseTriggerItems_round
    have h1 := stringifyTriggerItems_length ts2
    simp only [List.length_cons, List.length_append]
    omega

/-- Parsing the boolean literal `true` succeeds. -/
theorem parseBoolB_true (rest : List Nat) :
    parseBoolB (strBytes "true" ++ rest) = some (true, rest) := by
  unfold parseBoolB
  rw [parseLit_append]

/-- Parsing the print of a trigger map with the `loop: true` the encoder
always writes recovers the trigger list and the true flag. -/
theorem parseTriggerMapBytes_round (ts : List Trigger) :
    parseTriggerMapBytes (stringifyTriggerMap ts true) = some ⟨ts, true⟩ := by
  unfold parseTriggerMapBytes stringifyTriggerMap
  simp only [List.append_assoc, parseLit_append, parseTriggerArr_round, if_true,
    parseBoolB_true, parseLit_self, reduceIte]

/-- A slice at `off` returns `xs` whenever the buffer past `off` starts
with `xs`. -/
theorem sliceB_at {buf : List Nat} {off : Nat} {xs rest : List Nat}
    (hoff : off ≤ buf.length) (h : buf.drop off = xs ++ rest) :
    sliceB buf off xs.length = some xs := by
  have hlen : buf.length - off = xs.length + rest.length := by
    have := congrArg List.length h
    simpa [List.length_drop, List.length_append] using this
  unfold sliceB
  rw [if_pos (by omega)]
  rw [h, List.take_left]

/-- A u32 read at `off` returns `n` whenever the buffer past `off` starts
with the little-endian bytes of `n < 2^32`. -/
theorem getU32_at {buf : List Nat} {off n : Nat} {rest : List Nat}
    (hoff : off ≤ buf.length) (hn : n < 4294967296)
    (h : buf.drop off = u32Bytes n ++ rest) :
    getU32 buf off = some n := by
  unfold getU32
  have hs : sliceB buf off 4 = some (u32Bytes n) := by
    have := sliceB_at hoff h
    rwa [u32Bytes_length] at this
  rw [hs]
  show some (n % 256 + 256 * (n / 256 % 256) + 65536 * (n / 65536 % 256) +
    16777216 * (n / 16777216 % 256)) = some n
  congr 1
  omega

/-- Dropping `k` more bytes after `off` when the suffix at `off` starts
with a block of length `k`. -/
theorem drop_step {buf : List Nat} {off : Nat} {xs rest : List Nat}
    (h : buf.drop off = xs ++ rest) : buf.drop (off + xs.length) = rest := by
  have : buf.drop (off + xs.length) = (buf.drop off).drop xs.length := by
    rw [List.drop_drop, Nat.add_comm]
  rw [this, h, List.drop_left]

/-- The suffix relation bounds the offset. -/
theorem drop_le {buf : List Nat} {off : Nat} {xs rest : List Nat}
    (hoff : off ≤ buf.length) (h : buf.drop off = xs ++ rest) :
    off + xs.length ≤ buf.length := by
  have := congrArg List.length h
  simp [List.length_drop, List.length_append] at this
  omega

/-- Reading `count` sections from a buffer whose suffix at `off` is the
encoder's length-prefixed serialization of `count` section byte lists
recovers exactly those lists and lands after them. -/
theorem readSections_encode (secs : List (List Nat)) : ∀ (buf : List Nat) (off : Nat)
    (rest : List Nat), (∀ s ∈ secs, s.length < 4294967296) → off ≤ buf.length →
    buf.drop off = secs.flatMap (fun s => u32Bytes s.length ++ s) ++ rest →
    readSections buf secs.length off =
      .ok (secs, off + (secs.flatMap (fun s => u32Bytes s.length ++ s)).length) := by
  induction secs with
  | nil =>
    intro buf off rest _ _ _
    simp [readSections]
  | cons s secs2 ih =>
    intro buf off rest hlt hoff hdrop
    rw [List.flatMap_cons] at hdrop
    have hs32 : s.length < 4294967296 := hlt s (by simp)
    have hget : getU32 buf off = some s.length := by
      apply getU32_at hoff hs32
      rw [hdrop, List.append_assoc, List.append_assoc]
    have hoff4 : off + 4 ≤ buf.length := by
      have h4 : buf.drop off = u32Bytes s.length ++
          (s ++ (secs2.flatMap (fun s => u32Bytes s.length ++ s) ++ rest)) := by
        rw [hdrop, List.append_assoc, List.append_assoc]
      have := drop_le hoff h4
      rwa [u32Bytes_length] at this
    have hdrop4 : buf.drop (off + 4) =
        s ++ (secs2.flatMap (fun s => u32Bytes s.length ++ s) ++ rest) := by
      have h4 : buf.drop off = u32Bytes s.length ++
          (s ++ (secs2.flatMap (fun s => u32Bytes s.length ++ s) ++ rest)) := by
        rw [hdrop, List.append_assoc, List.append_assoc]
      have := drop_step h4
      rwa [u32Bytes_length] at this
    have hslice : sliceB buf (off + 4) s.length = some s := sliceB_at hoff4 hdrop4
    have hoffs : off + 4 + s.length ≤ buf.length := drop_le hoff4 hdrop4
    have hdrops : buf.drop (off + 4 + s.length) =
        secs2.flatMap (fun s => u32Bytes s.length ++ s) ++ rest := drop_step hdrop4
    have hrec := ih buf (off + 4 + s.length) rest
      (fun x hx => hlt x (by simp [hx])) hoffs hdrops
    show readSections buf (secs2.length + 1) off = _
    simp only [readSections, hget, hslice, hrec, List.flatMap_cons, List.length_append,
      u32Bytes_length]
    congr 2
    omega

/-- Decoding an encoded container (core phase, before the EOF check)
recovers the header, section bytes, triggers and loop flag, and consumes
the whole buffer. -/
theorem decodeCore_encode (frameRate : Nat) (frames audios : List (List Nat))
    (trigs : List Trigger)
    (hf : ∀ f ∈ frames, f.length < 4294967296)
    (ha : ∀ a ∈ audios, a.length < 4294967296)
    (hh : (stringifyHeader (mkHeader frameRate frames.length audios.length)).length < 4294967296)
    (ht : (stringifyTriggerMap trigs true).length < 4294967296) :
    decodeCore (createAudiGIF frameRate frames audios trigs) =
      .ok (⟨mkHeader frameRate frames.length audios.length, frames, audios, trigs, true⟩,
           (createAudiGIF frameRate frames audios trigs).length) := by
  have hB : createAudiGIF frameRate frames audios trigs =
      strBytes "AGIF" ++ (u32Bytes (stringifyHeader (mkHeader frameRate frames.length audios.length)).length ++
      (stringifyHeader (mkHeader frameRate frames.length audios.length) ++
      (frames.flatMap (fun fb => u32Bytes fb.length ++ fb) ++
      (audios.flatMap (fun ab => u32Bytes ab.length ++ ab) ++
      (u32Bytes (stringifyTriggerMap trigs true).length ++
      stringifyTriggerMap trigs true))))) := by
    simp only [createAudiGIF, List.append_assoc]
  rw [hB]
  set HB := stringifyHeader (mkHeader frameRate frames.length audios.length) with hHB
  set FP := frames.flatMap (fun fb => u32Bytes fb.length ++ fb) with hFP
  set AP := audios.flatMap (fun ab => u32Bytes ab.length ++ ab) with hAP
  set TB := stringifyTriggerMap trigs true with hTB
  set B := strBytes "AGIF" ++ (u32Bytes HB.length ++ (HB ++ (FP ++ (AP ++ (u32Bytes TB.length ++ TB))))) with hBdef
  have hd0 : B.drop 0 = strBytes "AGIF" ++ (u32Bytes HB.length ++ (HB ++ (FP ++ (AP ++ (u32Bytes TB.length ++ TB))))) := by
    rw [List.drop_zero]
  have h0le : 0 ≤ B.length := Nat.zero_le _
  have hd4 : B.drop 4 = u32Bytes HB.length ++ (HB ++ (FP ++ (AP ++ (u32Bytes TB.length ++ TB)))) := by
    have := drop_step hd0
    simpa using this
  have h4le : 0 + 4 ≤ B.length := by
    have h := drop_le h0le hd0
    have e : (strBytes "AGIF").length = 4 := rfl
    omega
  have hmagic : sliceB B 0 4 = some (strBytes "AGIF") := by
    have := sliceB_at h0le hd0
    simpa using this
  have hgetH : getU32 B 4 = some HB.length := getU32_at (by omega) hh hd4
  have hd8 : B.drop 8 = HB ++ (FP ++ (AP ++ (u32Bytes TB.length ++ TB))) := by
    have := drop_step hd4
    simpa using this
  have h8le : 8 ≤ B.length := by
    have := drop_le (by omega : 4 ≤ B.length) hd4
    simpa using this
  have hsliceH : sliceB B 8 HB.length = some HB := sliceB_at h8le hd8
  have hdF : B.drop (8 + HB.length) = FP ++ (AP ++ (u32Bytes TB.length ++ TB)) := drop_step hd8
  have hFle : 8 + HB.length ≤ B.length := drop_le h8le hd8
  have hparseH : parseHeaderBytes HB = some (mkHeader frameRate frames.length audios.length) := by
    rw [hHB]
    apply parseHeaderBytes_round
    · show (34 : Nat) ∉ strBytes "AGIF"
      decide
    · show (34 : Nat) ∉ strBytes "1.0"
      decide
    · show (34 : Nat) ∉ strBytes "wav"
      decide
  have hRSF : readSections B frames.length (8 + HB.length) =
      .ok (frames, 8 + HB.length + FP.length) := by
    have := readSections_encode frames B (8 + HB.length) (AP ++ (u32Bytes TB.length ++ TB)) hf hFle (by rw [hdF, hFP])
    rw [← hFP] at this
    exact this
  have hdA : B.drop (8 + HB.length + FP.length) = AP ++ (u32Bytes TB.length ++ TB) :=
    drop_step hdF
  have hAle : 8 + HB.length + FP.length ≤ B.length := drop_le hFle hdF
  have hRSA : readSections B audios.length (8 + HB.length + FP.length) =
      .ok (audios, 8 + HB.length + FP.length + AP.length) := by
    have := readSections_encode audios B (8 + HB.length + FP.length) (u32Bytes TB.length ++ TB) ha hAle (by rw [hdA, hAP])
    rw [← hAP] at this
    exact this
  have hdT : B.drop (8 + HB.length + FP.length + AP.length) = u32Bytes TB.length ++ TB :=
    drop_step hdA
  have hTle : 8 + HB.length + FP.length + AP.length ≤ B.length := drop_le hAle hdA
  have hgetT : getU32 B (8 + HB.length + FP.length + AP.length) = some TB.length :=
    getU32_at hTle ht hdT
  have hdT2 : B.drop (8 + HB.length + FP.length + AP.length + 4) = TB ++ [] := by
    have := drop_step hdT
    simpa using this
  have hT2le : 8 + HB.length + FP.length + AP.length + 4 ≤ B.length := by
    have := drop_le hTle hdT
    simpa using this
  have hsliceT : sliceB B (8 + HB.length + FP.length + AP.length + 4) TB.length = some TB :=
    sliceB_at hT2le hdT2
  have hparseT : parseTriggerMapBytes TB = some ⟨trigs, true⟩ := by
    rw [hTB]
    exact parseTriggerMapBytes_round trigs
  have hlenB : B.length = 8 + HB.length + FP.length + AP.length + 4 + TB.length := by
    rw [hBdef]
    simp only [List.length_append, u32Bytes_length]
    have e : (strBytes "AGIF").length = 4 := rfl
    omega
  have hnf : (mkHeader frameRate frames.length audios.length).numFrames = frames.length := rfl
  have hna : (mkHeader frameRate frames.length audios.length).numAudioClips = audios.length := rfl
  have hv1 : (mkHeader frameRate frames.length audios.length).version = strBytes "1.0" := rfl
  have hv2 : (mkHeader frameRate frames.length audios.length).audioFormat = strBytes "wav" := rfl
  unfold decodeCore
  simp only [hmagic, hgetH, hsliceH, hparseH, hRSF, hRSA, hgetT, hsliceT, hparseT,
    hnf, hna, hv1, hv2, ne_eq, not_true, reduceIte, or_self, if_false]
  rw [hlenB]
  rfl

/-- The cursor never moves backwards over a successful section read. -/
theorem readSections_le {buf : List Nat} : ∀ (count off : Nat) {secs : List (List Nat)}
    {off' : Nat}, readSections buf count off = .ok (secs, off') → off ≤ off' := by
  intro count
  induction count with
  | zero =>
    intro off secs off' h
    simp only [readSections] at h
    cases h
    omega
  | succ c ih =>
    intro off secs off' h
    simp only [readSections] at h
    split at h
    · simp at h
    · split at h
      · simp at h
      · split at h
        · simp at h
        · rename_i x1 len hg x2 bytes hs x3 rest off2 hr
          have hle := ih (off + 4 + len) hr
          simp only [Except.ok.injEq, Prod.mk.injEq] at h
          omega

/-- A successful section read ends inside the buffer (when it starts
inside it). -/
theorem readSections_end_le {buf : List Nat} : ∀ (count off : Nat) {secs : List (List Nat)}
    {off' : Nat}, off ≤ buf.length → readSections buf count off = .ok (secs, off') →
    off' ≤ buf.length := by
  intro count
  induction count with
  | zero =>
    intro off secs off' hoff h
    simp only [readSections] at h
    cases h
    exact hoff
  | succ c ih =>
    intro off secs off' hoff h
    simp only [readSections] at h
    split at h
    · simp at h
    · split at h
      · simp at h
      · split at h
        · simp at h
        · rename_i x1 len hg x2 bytes hs x3 rest off2 hr
          have hmid := sliceB_le hs
          have := ih (off + 4 + len) (by omega) hr
          simp only [Except.ok.injEq, Prod.mk.injEq] at h
          omega

/-- A successful section read is reproduced by any buffer agreeing on a
prefix that covers it. -/
theorem readSections_stable {buf buf' : List Nat} {N : Nat}
    (hpre : buf.take N = buf'.take N) (hlen : N ≤ buf'.length) :
    ∀ (count off : Nat) {secs : List (List Nat)} {off' : Nat},
    readSections buf count off = .ok (secs, off') → off' ≤ N →
    readSections buf' count off = .ok (secs, off') := by
  intro count
  induction count with
  | zero =>
    intro off secs off' h hN
    simp only [readSections] at h ⊢
    exact h
  | succ c ih =>
    intro off secs off' h hN
    simp only [readSections] at h
    split at h
    · simp at h
    · split at h
      · simp at h
      · split at h
        · simp at h
        · rename_i x1 len hg x2 bytes hs x3 rest off2 hr
          simp only [Except.ok.injEq, Prod.mk.injEq] at h
          obtain ⟨hsecs, hoff2⟩ := h
          have hrec_le : off + 4 + len ≤ off2 := readSections_le c (off + 4 + len) hr
          have hg2 : getU32 buf' off = some len :=
            getU32_stable (by omega) hpre hlen hg
          have hs2 : sliceB buf' (off + 4) len = some bytes :=
            sliceB_stable (by omega) hpre hlen hs
          have hr2 : readSections buf' c (off + 4 + len) = .ok (rest, off2) :=
            ih (off + 4 + len) hr (by omega)
          simp only [readSections, hg2, hs2, hr2]
          rw [hsecs, hoff2]

/-- A truncated buffer agrees with itself on its whole length. -/
theorem take_pre_self (buf : List Nat) (L : Nat) : buf.take L = (buf.take L).take L := by
  rw [List.take_take]
  simp

/-- A truncation at `L` inside the buffer has length `L`. -/
theorem take_len_self {buf : List Nat} {L : Nat} (hL : L ≤ buf.length) :
    L ≤ (buf.take L).length := by
  simp [List.length_take]
  omega

/-- Truncating a buffer strictly before the end of a successful section
read makes the read fail with the truncation error. -/
theorem readSections_take_err {buf : List Nat} {L : Nat} (hL : L ≤ buf.length) :
    ∀ (count off : Nat) {secs : List (List Nat)} {off' : Nat},
    readSections buf count off = .ok (secs, off') → off ≤ L → L < off' →
    readSections (buf.take L) count off = .error .truncated := by
  intro count
  induction count with
  | zero =>
    intro off secs off' h hoffL hLoff
    simp only [readSections] at h
    simp only [Except.ok.injEq, Prod.mk.injEq] at h
    obtain ⟨_, h2⟩ := h
    omega
  | succ c ih =>
    intro off secs off' h hoffL hLoff
    simp only [readSections] at h
    split at h
    · simp at h
    · split at h
      · simp at h
      · split at h
        · simp at h
        · rename_i x1 len hg x2 bytes hs x3 rest off2 hr
          simp only [Except.ok.injEq, Prod.mk.injEq] at h
          obtain ⟨hsecs, hoff2⟩ := h
          by_cases hc1 : L < off + 4
          · have hg2 : getU32 (buf.take L) off = none := getU32_take_none hL hc1
            simp only [readSections, hg2]
          · by_cases hc2 : L < off + 4 + len
            · have hg2 : getU32 (buf.take L) off = some len :=
                getU32_stable (by omega) (take_pre_self buf L) (take_len_self hL) hg
              have hs2 : sliceB (buf.take L) (off + 4) len = none :=
                sliceB_take_none hL hc2
              simp only [readSections, hg2, hs2]
            · have hg2 : getU32 (buf.take L) off = some len :=
                getU32_stable (by omega) (take_pre_self buf L) (take_len_self hL) hg
              have hs2 : sliceB (buf.take L) (off + 4) len = some bytes :=
                sliceB_stable (by omega) (take_pre_self buf L) (take_len_self hL) hs
              have hr2 : readSections (buf.take L) c (off + 4 + len) = .error .truncated :=
                ih (off + 4 + len) hr (by omega) (by omega)
              simp only [readSections, hg2, hs2, hr2]

/-- Inversion of a successful core decode: the reads it performed, their
results, and how the output and final cursor are assembled from them. -/
theorem decodeCore_ok_inv {buf : List Nat} {d : Decoded} {off : Nat}
    (h : decodeCore buf = .ok (d, off)) :
    ∃ (headerLen : Nat) (headerBytes : List Nat) (frames : List (List Nat)) (offF : Nat)
      (audios : List (List Nat)) (offA : Nat) (triggerLen : Nat) (triggerBytes : List Nat)
      (tm : TriggerMap),
      sliceB buf 0 4 = some (strBytes "AGIF") ∧
      getU32 buf 4 = some headerLen ∧
      sliceB buf 8 headerLen = some headerBytes ∧
      parseHeaderBytes headerBytes = some d.header ∧
      d.header.version = strBytes "1.0" ∧
      d.header.audioFormat = strBytes "wav" ∧
      readSections buf d.header.numFrames (8 + headerLen) = .ok (frames, offF) ∧
      readSections buf d.header.numAudioClips offF = .ok (audios, offA) ∧
      getU32 buf offA = some triggerLen ∧
      sliceB buf (offA + 4) triggerLen = some triggerBytes ∧
      parseTriggerMapBytes triggerBytes = some tm ∧
      d = ⟨d.header, frames, audios, tm.frame_triggers, tm.loop != false⟩ ∧
      off = offA + 4 + triggerLen := by
  unfold decodeCore at h
  split at h
  · simp at h
  · rename_i x1 magic hmagic
    split at h
    · simp at h
    · rename_i hmagicNe
      split at h
      · simp at h
      · rename_i x2 headerLen hgetH
        split at h
        · simp at h
        · rename_i x3 headerBytes hsliceH
          split at h
          · simp at h
          · rename_i x4 header hparseH
            split at h
            · simp at h
            · rename_i hval
              split at h
              · simp at h
              · rename_i x5 frames offF hRSF
                split at h
                · simp at h
                · rename_i x6 audios offA hRSA
                  split at h
                  · simp at h
                  · rename_i x7 triggerLen hgetT
                    split at h
                    · simp at h
                    · rename_i x8 triggerBytes hsliceT
                      split at h
                      · simp at h
                      · rename_i x9 tm hparseT
                        simp only [Except.ok.injEq, Prod.mk.injEq] at h
                        obtain ⟨hd, hoff⟩ := h
                        subst hd
                        have hm : magic = strBytes "AGIF" := not_not.mp hmagicNe
                        push_neg at hval
                        obtain ⟨hv, ha⟩ := hval
                        subst hm
                        exact ⟨headerLen, headerBytes, frames, offF, audios, offA,
                          triggerLen, triggerBytes, tm, hmagic, hgetH, hsliceH, hparseH,
                          hv, ha, hRSF, hRSA, hgetT, hsliceT, hparseT, rfl, hoff.symm⟩

/-- A prefix of a longer truncation is obtained by truncating it again. -/
theorem take_pre {buf : List Nat} {N L : Nat} (h : N ≤ L) :
    buf.take N = (buf.take L).take N := by
  rw [List.take_take, Nat.min_eq_left h]

/-- The final cursor of a successful core decode lies inside the buffer. -/
theorem decodeCore_le {buf : List Nat} {d : Decoded} {off : Nat}
    (h : decodeCore buf = .ok (d, off)) : off ≤ buf.length := by
  obtain ⟨hl, hb, fr, offF, au, offA, tl, tb, tm, hmagic, hgetH, hsliceH, hparseH,
    hv, ha, hRSF, hRSA, hgetT, hsliceT, hparseT, hd, hoff⟩ := decodeCore_ok_inv h
  have h1 := sliceB_le hsliceH
  have h2 := readSections_end_le _ _ (by omega) hRSF
  have h3 := readSections_end_le _ _ h2 hRSA
  have h4 := sliceB_le hsliceT
  omega

/-- A successful core decode is reproduced by any buffer agreeing with the
original on the consumed prefix. -/
theorem decodeCore_stable {buf buf' : List Nat} {d : Decoded} {off : Nat}
    (h : decodeCore buf = .ok (d, off))
    (hpre : buf.take off = buf'.take off) (hlen : off ≤ buf'.length) :
    decodeCore buf' = .ok (d, off) := by
  obtain ⟨hl, hb, fr, offF, au, offA, tl, tb, tm, hmagic, hgetH, hsliceH, hparseH,
    hv, ha, hRSF, hRSA, hgetT, hsliceT, hparseT, hd, hoff⟩ := decodeCore_ok_inv h
  have hRSFle : 8 + hl ≤ offF := readSections_le _ _ hRSF
  have hRSAle : offF ≤ offA := readSections_le _ _ hRSA
  have hend : offA + 4 + tl ≤ buf.length := sliceB_le hsliceT
  have hmagic2 : sliceB buf' 0 4 = some (strBytes "AGIF") :=
    sliceB_stable (by omega) hpre hlen hmagic
  have hgetH2 : getU32 buf' 4 = some hl := getU32_stable (by omega) hpre hlen hgetH
  have hsliceH2 : sliceB buf' 8 hl = some hb := sliceB_stable (by omega) hpre hlen hsliceH
  have hRSF2 : readSections buf' d.header.numFrames (8 + hl) = .ok (fr, offF) :=
    readSections_stable hpre hlen _ _ hRSF (by omega)
  have hRSA2 : readSections buf' d.header.numAudioClips offF = .ok (au, offA) :=
    readSections_stable hpre hlen _ _ hRSA (by omega)
  have hgetT2 : getU32 buf' offA = some tl := getU32_stable (by omega) hpre hlen hgetT
  have hsliceT2 : sliceB buf' (offA + 4) tl = some tb :=
    sliceB_stable (by omega) hpre hlen hsliceT
  unfold decodeCore
  simp only [hmagic2, hgetH2, hsliceH2, hparseH, hv, ha, hRSF2, hRSA2, hgetT2,
    hsliceT2, hparseT, ne_eq, not_true, reduceIte, or_self, if_false]
  rw [← hd, ← hoff]

/-- Truncating a buffer strictly before the cursor of a successful core
decode makes the core decode fail with the truncation error, whichever
read the cut lands in. -/
theorem decodeCore_take_err {buf : List Nat} {d : Decoded} {off : Nat}
    (h : decodeCore buf = .ok (d, off)) {L : Nat} (hL : L < off) :
    decodeCore (buf.take L) = .error .truncated := by
  obtain ⟨hl, hb, fr, offF, au, offA, tl, tb, tm, hmagic, hgetH, hsliceH, hparseH,
    hv, ha, hRSF, hRSA, hgetT, hsliceT, hparseT, hd, hoff⟩ := decodeCore_ok_inv h
  have hbuf : off ≤ buf.length := decodeCore_le h
  have hLbuf : L ≤ buf.length := by omega
  have htl : L ≤ (buf.take L).length := take_len_self hLbuf
  have hRSFle : 8 + hl ≤ offF := readSections_le _ _ hRSF
  have hRSAle : offF ≤ offA := readSections_le _ _ hRSA
  by_cases hc1 : L < 4
  · have h1 : sliceB (buf.take L) 0 4 = none := sliceB_take_none hLbuf (by omega)
    simp only [decodeCore, h1]
  · have hmagic2 : sliceB (buf.take L) 0 4 = some (strBytes "AGIF") :=
      sliceB_stable (N := 4) (by omega) (take_pre (by omega)) (by omega) hmagic
    by_cases hc2 : L < 8
    · have h2 : getU32 (buf.take L) 4 = none := getU32_take_none hLbuf (by omega)
      simp only [decodeCore, hmagic2, h2, ne_eq, not_true, reduceIte]
    · have hgetH2 : getU32 (buf.take L) 4 = some hl :=
        getU32_stable (N := 8) (by omega) (take_pre (by omega)) (by omega) hgetH
      by_cases hc3 : L < 8 + hl
      · have h3 : sliceB (buf.take L) 8 hl = none := sliceB_take_none hLbuf (by omega)
        simp only [decodeCore, hmagic2, hgetH2, h3, ne_eq, not_true, reduceIte]
      · have hsliceH2 : sliceB (buf.take L) 8 hl = some hb :=
          sliceB_stable (N := 8 + hl) (by omega) (take_pre (by omega)) (by omega) hsliceH
        by_cases hc4 : L < offF
        · have h4 : readSections (buf.take L) d.header.numFrames (8 + hl) = .error .truncated :=
            readSections_take_err hLbuf _ _ hRSF (by omega) hc4
          simp only [decodeCore, hmagic2, hgetH2, hsliceH2, hparseH, hv, ha, h4,
            ne_eq, not_true, reduceIte, or_self, if_false]
        · have hRSF2 : readSections (buf.take L) d.header.numFrames (8 + hl) = .ok (fr, offF) :=
            readSections_stable (N := offF) (take_pre (by omega)) (by omega) _ _ hRSF (by omega)
          by_cases hc5 : L < offA
          · have h5 : readSections (buf.take L) d.header.numAudioClips offF = .error .truncated :=
              readSections_take_err hLbuf _ _ hRSA (by omega) hc5
            simp only [decodeCore, hmagic2, hgetH2, hsliceH2, hparseH, hv, ha, hRSF2, h5,
              ne_eq, not_true, reduceIte, or_self, if_false]
          · have hRSA2 : readSections (buf.take L) d.header.numAudioClips offF = .ok (au, offA) :=
              readSections_stable (N := offA) (take_pre (by omega)) (by omega) _ _ hRSA (by omega)
            by_cases hc6 : L < offA + 4
            · have h6 : getU32 (buf.take L) offA = none := getU32_take_none hLbuf (by omega)
              simp only [decodeCore, hmagic2, hgetH2, hsliceH2, hparseH, hv, ha, hRSF2,
                hRSA2, h6, ne_eq, not_true, reduceIte, or_self, if_false]
            · have hgetT2 : getU32 (buf.take L) offA = some tl :=
                getU32_stable (N := offA + 4) (by omega) (take_pre (by omega)) (by omega) hgetT
              have h7 : sliceB (buf.take L) (offA + 4) tl = none :=
                sliceB_take_none hLbuf (by omega)
              simp only [decodeCore, hmagic2, hgetH2, hsliceH2, hparseH, hv, ha, hRSF2,
                hRSA2, hgetT2, h7, ne_eq, not_true, reduceIte, or_self, if_false]

/-- A successful decode is a successful core decode that consumed the
whole buffer. -/
theorem decode_ok_inv {buf : List Nat} {d : Decoded}
    (h : AGIFDecoder.decode buf = .ok d) : decodeCore buf = .ok (d, buf.length) := by
  unfold AGIFDecoder.decode at h
  split at h
  · simp at h
  · rename_i x d0 off0 hcore
    split at h
    · rename_i hoffeq
      simp only [Except.ok.injEq] at h
      rw [h, hoffeq] at hcore
      exact hcore
    · simp at h

/-- Decoding an encoded container succeeds and returns the encoder's
header, the section byte lists, the triggers, and loop flag `true`. -/
theorem decode_createAudiGIF (frameRate : Nat) (frames audios : List (List Nat))
    (trigs : List Trigger)
    (hf : ∀ f ∈ frames, f.length < 4294967296)
    (ha : ∀ a ∈ audios, a.length < 4294967296)
    (hh : (stringifyHeader (mkHeader frameRate frames.length audios.length)).length < 4294967296)
    (ht : (stringifyTriggerMap trigs true).length < 4294967296) :
    AGIFDecoder.decode (createAudiGIF frameRate frames audios trigs) =
      .ok ⟨mkHeader frameRate frames.length audios.length, frames, audios, trigs, true⟩ := by
  unfold AGIFDecoder.decode
  rw [decodeCore_encode frameRate frames audios trigs hf ha hh ht]
  simp

/-- C1: for every frame-rate, ordered frame byte sequences, ordered WAV
byte sequences and trigger list (the encoder constructs the header with
`numFrames`/`numAudioClips` equal to the sequence counts, satisfying the
count invariants, and each section small enough for its u32 length
prefix), decoding the encoded container yields the same values
field-for-field: header values, frame bytes, audio bytes, trigger list
and loop flag. -/
theorem claim_roundtrip (frameRate : Nat) (frames audios : List (List Nat))
    (trigs : List Trigger)
    (hf : ∀ f ∈ frames, f.length < 4294967296)
    (ha : ∀ a ∈ audios, a.length < 4294967296)
    (hh : (stringifyHeader (mkHeader frameRate frames.length audios.length)).length < 4294967296)
    (ht : (stringifyTriggerMap trigs true).length < 4294967296) :
    AGIFDecoder.decode (createAudiGIF frameRate frames audios trigs) =
      .ok ⟨mkHeader frameRate frames.length audios.length, frames, audios, trigs, true⟩ :=
  decode_createAudiGIF frameRate frames audios trigs hf ha hh ht

set_option maxRecDepth 100000 in
/-- Witness for C1 at a concrete container with one frame, one audio clip
and one trigger. -/
theorem claim_roundtrip_witness :
    AGIFDecoder.decode (createAudiGIF 10 [[65, 66]] [[1, 2, 3]] [⟨0, 0⟩]) =
      .ok ⟨mkHeader 10 1 1, [[65, 66]], [[1, 2, 3]], [⟨0, 0⟩], true⟩ :=
  claim_roundtrip 10 [[65, 66]] [[1, 2, 3]] [⟨0, 0⟩]
    (by decide) (by decide) (by decide) (by decide)

/-- C2 counterexample: a buffer shorter than 4 bytes does not fail with
the bad-magic error; the slice of the magic itself throws the range
error, so the claim as stated (covering buffers shorter than 4 bytes)
fails on the empty buffer. -/
theorem claim_magic_counterexample :
    AGIFDecoder.decode [] = .error .truncated ∧
    AGIFDecoder.decode [] ≠ .error .badMagic := by
  constructor
  · rfl
  · decide

/-- C2 (amended): for every buffer of length at least 4 whose first four
bytes are not "AGIF", decode fails with the bad-magic error regardless of
the rest of the buffer; shorter buffers fail with the range (truncated)
error instead. -/
theorem claim_magic_amended (buf : List Nat) (h4 : 4 ≤ buf.length)
    (hm : buf.take 4 ≠ strBytes "AGIF") :
    AGIFDecoder.decode buf = .error .badMagic := by
  have hs : sliceB buf 0 4 = some (buf.take 4) := by
    unfold sliceB
    rw [if_pos (by omega), List.drop_zero]
  unfold AGIFDecoder.decode decodeCore
  simp only [hs, if_pos hm]

/-- Witness for the amended C2 on a 4-byte buffer of zeros. -/
theorem claim_magic_amended_witness :
    AGIFDecoder.decode [0, 0, 0, 0] = .error .badMagic :=
  claim_magic_amended [0, 0, 0, 0] (by decide) (by decide)

/-- C3: truncating any successfully decodable container anywhere before
its end makes decode fail with the truncated-section (range) failure;
no truncation yields a successful partial decode. -/
theorem claim_truncation (buf : List Nat) (d : Decoded) (L : Nat)
    (hok : AGIFDecoder.decode buf = .ok d) (hL : L < buf.length) :
    AGIFDecoder.decode (buf.take L) = .error .truncated := by
  have hcore : decodeCore buf = .ok (d, buf.length) := decode_ok_inv hok
  have htr := decodeCore_take_err hcore hL
  unfold AGIFDecoder.decode
  simp only [htr]

set_option maxRecDepth 100000 in
/-- Witness for C3: a concrete container truncated in its frame section. -/
theorem claim_truncation_witness :
    AGIFDecoder.decode ((createAudiGIF 10 [[65]] [[7, 8]] [⟨0, 0⟩]).take 20) =
      .error .truncated :=
  claim_truncation (createAudiGIF 10 [[65]] [[7, 8]] [⟨0, 0⟩])
    ⟨mkHeader 10 1 1, [[65]], [[7, 8]], [⟨0, 0⟩], true⟩ 20
    (claim_roundtrip 10 [[65]] [[7, 8]] [⟨0, 0⟩] (by decide) (by decide) (by decide) (by decide))
    (by decide)

/-- C4: appending N > 0 extra bytes to any successfully decodable
container makes decode fail with the trailing-data error reporting
exactly N. -/
theorem claim_trailing (buf : List Nat) (d : Decoded) (extra : List Nat)
    (hok : AGIFDecoder.decode buf = .ok d) (hne : extra ≠ []) :
    AGIFDecoder.decode (buf ++ extra) = .error (.trailing extra.length) := by
  have hcore : decodeCore buf = .ok (d, buf.length) := decode_ok_inv hok
  have hst : decodeCore (buf ++ extra) = .ok (d, buf.length) := by
    apply decodeCore_stable hcore
    · rw [List.take_length, List.take_left]
    · simp
  have hpos : 0 < extra.length := List.length_pos.mpr hne
  unfold AGIFDecoder.decode
  simp only [hst]
  rw [if_neg (by rw [List.length_append]; omega)]
  simp [List.length_append]

set_option maxRecDepth 100000 in
/-- Witness for C4: two extra bytes after a concrete container are
reported as exactly 2. -/
theorem claim_trailing_witness :
    AGIFDecoder.decode (createAudiGIF 10 [[65]] [[7, 8]] [⟨0, 0⟩] ++ [9, 9]) =
      .error (.trailing 2) :=
  claim_trailing (createAudiGIF 10 [[65]] [[7, 8]] [⟨0, 0⟩])
    ⟨mkHeader 10 1 1, [[65]], [[7, 8]], [⟨0, 0⟩], true⟩ [9, 9]
    (claim_roundtrip 10 [[65]] [[7, 8]] [⟨0, 0⟩] (by decide) (by decide) (by decide) (by decide))
    (by decide)

/-- C5: in the PCM-to-WAV transcoder every float sample is clamped to
[-1, 1] first; a clamped negative sample is scaled by 32768 and a clamped
non-negative sample by 32767 before the little-endian signed 16-bit
store; input 1 encodes to 32767 (bytes FF 7F) and input -1 to -32768
(bytes 00 80); the function is total, every input landing in the signed
16-bit range with no failure path. -/
theorem claim_wav_sample (x : ℚ) :
    (1 ≤ x → jsToInt16 (scaleSample x) = 32767) ∧
    (x ≤ -1 → jsToInt16 (scaleSample x) = -32768) ∧
    (-1 ≤ x → x < 0 → scaleSample x = x * 32768) ∧
    (0 ≤ x → x ≤ 1 → scaleSample x = x * 32767) ∧
    (-32768 ≤ scaleSample x ∧ scaleSample x ≤ 32767) ∧
    int16LEBytes (scaleSample 1) = [255, 127] ∧
    int16LEBytes (scaleSample (-1)) = [0, 128] := by
  have hclamp_ge : -1 ≤ clampSample x := le_max_left _ _
  have hclamp_le : clampSample x ≤ 1 :=
    max_le (by norm_num) (min_le_left _ _)
  refine ⟨?_, ?_, ?_, ?_, ?_, ?_, ?_⟩
  · intro h1
    have hc : clampSample x = 1 := by
      unfold clampSample
      rw [min_eq_left h1, max_eq_right (by norm_num : (-1 : ℚ) ≤ 1)]
    have hs : scaleSample x = 32767 := by
      simp only [scaleSample, hc]
      norm_num
    rw [hs]
    decide
  · intro h2
    have hc : clampSample x = -1 := by
      unfold clampSample
      rw [min_eq_right (by linarith), max_eq_left h2]
    have hs : scaleSample x = -32768 := by
      simp only [scaleSample, hc]
      norm_num
    rw [hs]
    decide
  · intro h3 h4
    have hc : clampSample x = x := by
      unfold clampSample
      rw [min_eq_right (by linarith), max_eq_right h3]
    simp only [scaleSample, hc, if_pos h4]
  · intro h5 h6
    have hc : clampSample x = x := by
      unfold clampSample
      rw [min_eq_right h6, max_eq_right (by linarith)]
    simp only [scaleSample, hc, if_neg (not_lt.mpr h5)]
  · simp only [scaleSample]
    by_cases hsn : clampSample x < 0
    · rw [if_pos hsn]
      constructor <;> nlinarith
    · rw [if_neg hsn]
      push_neg at hsn
      constructor <;> nlinarith
  · have hs : scaleSample 1 = 32767 := by
      simp only [scaleSample, clampSample]
      norm_num
    rw [hs]
    decide
  · have hs : scaleSample (-1) = -32768 := by
      simp only [scaleSample, clampSample]
      norm_num
    rw [hs]
    decide

/-- Witness for C5 at the out-of-range sample 2, which clamps to 1 and
stores 32767. -/
theorem claim_wav_sample_witness : jsToInt16 (scaleSample 2) = 32767 :=
  (claim_wav_sample 2).1 (by norm_num)

/-- C6: on every tick while playing (with a loaded container whose frame
list is non-empty), the current frame advances to
(currentFrame + 1) mod numFrames, for every loaded container — in
particular regardless of its loop flag; and in the concrete three-frame
scenario, three ticks from frame 0 return to frame 0 with the trigger on
frame 1 firing exactly once. -/
theorem claim_tick_advance (w : World) (da : DecodedAssets)
    (hp : w.player.isPlaying = true) (hdec : w.player.decoded = some da)
    (hne : da.frames ≠ []) :
    (AGIFPlayer.animate w).player.currentFrame =
      (w.player.currentFrame + 1) % da.header.numFrames ∧
    (AGIFPlayer.animate (AGIFPlayer.animate (AGIFPlayer.animate demoWorld))).player.currentFrame = 0 ∧
    (AGIFPlayer.animate (AGIFPlayer.animate (AGIFPlayer.animate demoWorld))).events.count
      (Event.startAudio 0) = 1 := by
  refine ⟨?_, by decide, by decide⟩
  simp only [AGIFPlayer.animate, hp, hdec, reduceIte, if_neg hne]
  simp

/-- Witness for C6: one tick of the concrete scenario advances frame 0 to
frame 1 of 3. -/
theorem claim_tick_advance_witness :
    (AGIFPlayer.animate demoWorld).player.currentFrame = (0 + 1) % 3 :=
  (claim_tick_advance demoWorld demoAssets (by decide) (by decide) (by decide)).1

/-- C7: on a tick, every trigger of the current frame whose audio index
has a decoded clip starts that clip, and every trigger of the current
frame whose audio index has no decoded clip is silently skipped — no
event is dispatched for it. -/
theorem claim_trigger_skip (w : World) (da : DecodedAssets)
    (hp : w.player.isPlaying = true) (hdec : w.player.decoded = some da)
    (hne : da.frames ≠ []) :
    ∀ t ∈ da.triggers, t.frame = w.player.currentFrame →
      (t.audio < da.audioBuffers.length →
        Event.startAudio t.audio ∈ (AGIFPlayer.animate w).events.drop w.events.length) ∧
      (da.audioBuffers.length ≤ t.audio →
        Event.startAudio t.audio ∉ (AGIFPlayer.animate w).events.drop w.events.length) := by
  intro t ht htf
  have hev : (AGIFPlayer.animate w).events.drop w.events.length =
      Event.renderFrame w.player.currentFrame :: da.triggers.filterMap (fun u =>
        if u.frame = w.player.currentFrame ∧ u.audio < da.audioBuffers.length then
          some (Event.startAudio u.audio) else none) := by
    simp only [AGIFPlayer.animate, hp, hdec, reduceIte, if_neg hne]
    simp only [Bool.true_eq_false, if_false]
    rw [List.drop_left]
  rw [hev]
  constructor
  · intro hlt
    apply List.mem_cons_of_mem
    exact List.mem_filterMap.mpr ⟨t, ht, by rw [if_pos ⟨htf, hlt⟩]⟩
  · intro hge hmem
    rcases List.mem_cons.mp hmem with hcase | hcase
    · simp at hcase
    · obtain ⟨t2, ht2, hf2⟩ := List.mem_filterMap.mp hcase
      by_cases hc : t2.frame = w.player.currentFrame ∧ t2.audio < da.audioBuffers.length
      · rw [if_pos hc] at hf2
        simp only [Option.some.injEq, Event.startAudio.injEq] at hf2
        omega
      · rw [if_neg hc] at hf2
        simp at hf2

/-- Witness for C7 in the concrete scenario on frame 1: the trigger with
a decoded clip fires, and none is skipped. -/
theorem claim_trigger_skip_witness :
    Event.startAudio 0 ∈
      (AGIFPlayer.animate (AGIFPlayer.animate demoWorld)).events.drop
        (AGIFPlayer.animate demoWorld).events.length :=
  ((claim_trigger_skip (AGIFPlayer.animate demoWorld) demoAssets
    (by decide) (by decide) (by decide)) ⟨1, 0⟩ (by decide) (by decide)).1 (by decide)

/-- C8: play() is a no-op while already playing or with nothing loaded;
pause() retains the current frame; and play() after a pause renders first
the retained current frame — resuming where playback left off, not at
frame 0. -/
theorem claim_play_pause (w : World) (da : DecodedAssets) :
    (w.player.isPlaying = true → AGIFPlayer.play w = w) ∧
    (w.player.decoded = none → AGIFPlayer.play w = w) ∧
    (AGIFPlayer.pause w).player.currentFrame = w.player.currentFrame ∧
    (w.player.decoded = some da → da.frames ≠ [] →
      ∃ rest, (AGIFPlayer.play (AGIFPlayer.pause w)).events =
        w.events ++ Event.renderFrame w.player.currentFrame :: rest) := by
  refine ⟨?_, ?_, ?_, ?_⟩
  · intro h
    simp [AGIFPlayer.play, h]
  · intro h
    simp [AGIFPlayer.play, h]
  · unfold AGIFPlayer.pause
    cases hA : w.player.animationId <;> simp [hA]
  · intro hdec hne
    refine ⟨da.triggers.filterMap (fun u =>
      if u.frame = w.player.currentFrame ∧ u.audio < da.audioBuffers.length then
        some (Event.startAudio u.audio) else none), ?_⟩
    cases hA : w.player.animationId <;>
      simp [AGIFPlayer.pause, AGIFPlayer.play, AGIFPlayer.animate, hA, hdec, hne]

/-- Witness for C8: in a paused copy of the demo world at frame 1,
resuming renders frame 1 first. -/
theorem claim_play_pause_witness :
    AGIFPlayer.play ⟨⟨true, 1, none, some demoAssets⟩, [], [], 1, 1, []⟩ =
      ⟨⟨true, 1, none, some demoAssets⟩, [], [], 1, 1, []⟩ ∧
    (AGIFPlayer.pause ⟨⟨true, 1, none, some demoAssets⟩, [], [], 1, 1, []⟩).player.currentFrame = 1 := by
  constructor
  · exact (claim_play_pause ⟨⟨true, 1, none, some demoAssets⟩, [], [], 1, 1, []⟩ demoAssets).1 (by decide)
  · exact (claim_play_pause ⟨⟨true, 1, none, some demoAssets⟩, [], [], 1, 1, []⟩ demoAssets).2.2.1

/-- C9 counterexample: pause() does not cancel the pending setTimeout
callback — after pausing a world whose animationId holds the pending
timeout handle 5, that handle is still in the pending-timeouts pool,
because the code calls cancelAnimationFrame with a setTimeout handle. -/
theorem claim_pause_cancel_counterexample :
    (AGIFPlayer.pause pausedWorld).timeouts = [5] ∧
    5 ∈ (AGIFPlayer.pause pausedWorld).timeouts := by decide

/-- C9 (amended): pause() leaves the pending timeout in the pool (the
wrong cancellation primitive is called), but the stale callback chain is
harmless: delivering the pending timeout and the requestAnimationFrame
callback it registers renders nothing, dispatches no trigger, leaves the
current frame unchanged and schedules no follow-up tick, until play() is
called again. -/
theorem claim_pause_cancel_amended (w : World) (h : Nat)
    (hmem : h ∈ (AGIFPlayer.pause w).timeouts) :
    (AGIFPlayer.pause w).timeouts = w.timeouts ∧
    (fireRaf (fireTimeout (AGIFPlayer.pause w) h) (AGIFPlayer.pause w).nextR).events = w.events ∧
    (fireRaf (fireTimeout (AGIFPlayer.pause w) h) (AGIFPlayer.pause w).nextR).player.currentFrame =
      w.player.currentFrame ∧
    (fireRaf (fireTimeout (AGIFPlayer.pause w) h) (AGIFPlayer.pause w).nextR).nextT = w.nextT ∧
    (fireRaf (fireTimeout (AGIFPlayer.pause w) h) (AGIFPlayer.pause w).nextR).timeouts =
      (AGIFPlayer.pause w).timeouts.erase h := by
  have hPplay : (AGIFPlayer.pause w).player.isPlaying = false := by
    unfold AGIFPlayer.pause
    cases hA : w.player.animationId <;> simp [hA]
  have hPtimeouts : (AGIFPlayer.pause w).timeouts = w.timeouts := by
    unfold AGIFPlayer.pause
    cases hA : w.player.animationId <;> simp [hA]
  have hPevents : (AGIFPlayer.pause w).events = w.events := by
    unfold AGIFPlayer.pause
    cases hA : w.player.animationId <;> simp [hA]
  have hPcur : (AGIFPlayer.pause w).player.currentFrame = w.player.currentFrame := by
    unfold AGIFPlayer.pause
    cases hA : w.player.animationId <;> simp [hA]
  have hPnextT : (AGIFPlayer.pause w).nextT = w.nextT := by
    unfold AGIFPlayer.pause
    cases hA : w.player.animationId <;> simp [hA]
  have hft : fireTimeout (AGIFPlayer.pause w) h =
      { AGIFPlayer.pause w with
        timeouts := (AGIFPlayer.pause w).timeouts.erase h,
        rafs := (AGIFPlayer.pause w).rafs ++ [(AGIFPlayer.pause w).nextR],
        nextR := (AGIFPlayer.pause w).nextR + 1 } := by
    unfold fireTimeout
    rw [if_pos hmem]
  have hmemR : (AGIFPlayer.pause w).nextR ∈
      (fireTimeout (AGIFPlayer.pause w) h).rafs := by
    rw [hft]
    simp
  have hfr : fireRaf (fireTimeout (AGIFPlayer.pause w) h) (AGIFPlayer.pause w).nextR =
      AGIFPlayer.animate { fireTimeout (AGIFPlayer.pause w) h with
        rafs := (fireTimeout (AGIFPlayer.pause w) h).rafs.erase (AGIFPlayer.pause w).nextR } := by
    unfold fireRaf
    rw [if_pos hmemR]
  have hanim : ∀ w2 : World, w2.player.isPlaying = false → AGIFPlayer.animate w2 = w2 := by
    intro w2 h2
    unfold AGIFPlayer.animate
    rw [h2]
    simp
  rw [hfr, hanim _ (by rw [hft]; exact hPplay)]
  rw [hft]
  exact ⟨hPtimeouts, hPevents, hPcur, hPnextT, rfl⟩

/-- Witness for the amended C9 on the concrete paused world: the stale
chain leaves events, frame, and the timeout counter unchanged. -/
theorem claim_pause_cancel_amended_witness :
    (fireRaf (fireTimeout (AGIFPlayer.pause pausedWorld) 5) (AGIFPlayer.pause pausedWorld).nextR).events = [] ∧
    (fireRaf (fireTimeout (AGIFPlayer.pause pausedWorld) 5) (AGIFPlayer.pause pausedWorld).nextR).player.currentFrame = 1 := by
  have h := claim_pause_cancel_amended pausedWorld 5 (by decide)
  exact ⟨h.2.1, h.2.2.1⟩

/-- C10: the encoder takes no caller loop setting at all — it always
writes `loop: true` into the trigger section — so every container it
produces decodes with loop = true. -/
theorem claim_encoder_loop_true (frameRate : Nat) (frames audios : List (List Nat))
    (trigs : List Trigger)
    (hf : ∀ f ∈ frames, f.length < 4294967296)
    (ha : ∀ a ∈ audios, a.length < 4294967296)
    (hh : (stringifyHeader (mkHeader frameRate frames.length audios.length)).length < 4294967296)
    (ht : (stringifyTriggerMap trigs true).length < 4294967296) :
    ∃ d, AGIFDecoder.decode (createAudiGIF frameRate frames audios trigs) = .ok d ∧
      d.loop = true :=
  ⟨_, decode_createAudiGIF frameRate frames audios trigs hf ha hh ht, rfl⟩

set_option maxRecDepth 100000 in
/-- Witness for C10 at a concrete two-frame container. -/
theorem claim_encoder_loop_true_witness :
    ∃ d, AGIFDecoder.decode (createAudiGIF 10 [[1], [2]] [] []) = .ok d ∧ d.loop = true :=
  claim_encoder_loop_true 10 [[1], [2]] [] [] (by decide) (by decide) (by decide) (by decide)
